import Mathlib

/-!
Shallow embedding of the card-game server (`card_game_server.py`): the
`Card`/`Deck` model, the authoritative `Game` state, `start_game`,
`next_turn`, `handle_action`, and the per-player projection
`get_game_state`, together with theorems about the claims of the spec.

Representation choices:
* the deck is a `List Card` in deal order, so `deal_card` (Python
  `list.pop()` from the shuffled deck) takes the head of the list;
* the discard pile is a `List Card` with the top at the END of the list,
  matching Python `append` / `pop()` / `[-1]`;
* the players dict (insertion-ordered, keyed by id) is a `List Player`
  where each `Player` carries its id, looked up with `find?`;
* the lazily-created `show_results` dict is an `Option` assoc list;
* shuffling is nondeterministic, so the fresh deck built by `Deck()` is
  a parameter of `startGame` / `handleAction`.
-/

inductive Suit where
  | hearts | diamonds | clubs | spades
deriving DecidableEq, Repr

inductive Rank where
  | r2 | r3 | r4 | r5 | r6 | r7 | r8 | r9 | r10
  | jack | queen | king | ace
deriving DecidableEq, Repr

structure Card where
  suit : Suit
  rank : Rank
deriving DecidableEq, Repr

/-- All suits, in the order of `Card.SUITS`. -/
def allSuits : List Suit := [.hearts, .diamonds, .clubs, .spades]

/-- All ranks, in the order of `Card.RANKS`. -/
def allRanks : List Rank :=
  [.r2, .r3, .r4, .r5, .r6, .r7, .r8, .r9, .r10, .jack, .queen, .king, .ace]

/-- The 52-card deck built by `Deck.__init__` before shuffling:
the Cartesian product of suits and ranks. -/
def fullDeck : List Card :=
  allSuits.flatMap (fun s => allRanks.map (fun r => Card.mk s r))

/-- Rank values of `Game.get_card_value`: 2-10 face value,
Jack 11, Queen 12, King 13, Ace 1. -/
def Rank.value : Rank → Nat
  | .r2 => 2 | .r3 => 3 | .r4 => 4 | .r5 => 5 | .r6 => 6
  | .r7 => 7 | .r8 => 8 | .r9 => 9 | .r10 => 10
  | .jack => 11 | .queen => 12 | .king => 13 | .ace => 1

/-- Embedding of `Game.get_card_value` on a card (the rank determines the value). -/
def getCardValue (c : Card) : Nat := c.rank.value

def Suit.str : Suit → String
  | .hearts => "Hearts" | .diamonds => "Diamonds"
  | .clubs => "Clubs" | .spades => "Spades"

def Rank.str : Rank → String
  | .r2 => "2" | .r3 => "3" | .r4 => "4" | .r5 => "5" | .r6 => "6"
  | .r7 => "7" | .r8 => "8" | .r9 => "9" | .r10 => "10"
  | .jack => "Jack" | .queen => "Queen" | .king => "King" | .ace => "Ace"

/-- Display form `Card.__str__`: `"<rank> of <suit>"`. -/
def cardToString (c : Card) : String := c.rank.str ++ " of " ++ c.suit.str

/-- The value stored in `show_results` for a player: the code writes the
strings `"Winner"` / `"Losser"`. -/
inductive ShowResult where
  | winner | loser
deriving DecidableEq, Repr

/-- Server-side `Player`: name, id, and the owned hand (insertion order). -/
structure Player where
  name : String
  pid : Nat
  hand : List Card
deriving DecidableEq, Repr

/-- The authoritative `Game` state (the fields mutated by the session
engine; the lock is a concurrency artifact and is not part of the data). -/
structure Game where
  players : List Player
  deck : List Card
  current_turn_player_id : Option Nat
  discard_pile : List Card
  player_order : List Nat
  game_started : Bool
  has_discarded : Bool
  pending_discard : Option (List Card × Nat)
  show_results : Option (List (Nat × ShowResult))
deriving DecidableEq, Repr

/-- Lookup `self.players[player_id]`. -/
def findPlayer (ps : List Player) (pid : Nat) : Option Player :=
  ps.find? (fun p => p.pid == pid)

/-- Apply `f` to the hand of the player with id `pid`. -/
def updateHand (ps : List Player) (pid : Nat) (f : List Card → List Card) :
    List Player :=
  ps.map (fun p => if p.pid = pid then { p with hand := f p.hand } else p)

/-- Dict update `m[k] = v` on an insertion-ordered assoc list with unique
keys: an existing binding is updated in place, a new key is appended. -/
def assocSet : List (Nat × ShowResult) → Nat → ShowResult →
    List (Nat × ShowResult)
  | [], k, v => [(k, v)]
  | kv :: m, k, v =>
      if kv.1 = k then (k, v) :: m else kv :: assocSet m k v

/-- Dict lookup `m.get(k)`. -/
def assocGet (m : List (Nat × ShowResult)) (k : Nat) : Option ShowResult :=
  (m.find? (fun kv => kv.1 == k)).map (fun kv => kv.2)

/-- Hand sum `sum(self.get_card_value(card) for card in p.hand)`. -/
def handSum (hand : List Card) : Nat :=
  (hand.map getCardValue).sum

/-- Python `min` over a nonempty list (`min(hand_sums.values())`);
the `[]` case is unreachable at the call site. -/
def listMin : List Nat → Nat
  | [] => 0
  | x :: xs => xs.foldl min x

/-- One iteration of the inner dealing loop: `card = self.deck.deal_card();
if card: self.players[player_id].add_card(card)`. -/
def dealOne (g : Game) (pid : Nat) : Game :=
  match g.deck with
  | [] => g
  | c :: rest =>
      { g with deck := rest, players := updateHand g.players pid (· ++ [c]) }

/-- One round of the dealing loop: one card to each player in turn order. -/
def dealToAll (g : Game) (order : List Nat) : Game :=
  order.foldl dealOne g

/-- The dealing loops `for _ in range(cards_per_player): for player_id in self.player_order: ...` -/
def dealRounds (g : Game) : Nat → Game
  | 0 => g
  | n + 1 => dealRounds (dealToAll g g.player_order) n

/-- Embedding of `Game.start_game(cards_per_player)`.  `freshDeck` is the shuffled deck
built by `Deck()`.  Returns the new state and the boolean result. -/
def startGame (freshDeck : List Card) (cardsPerPlayer : Nat) (g : Game) :
    Game × Bool :=
  if !g.game_started && decide (2 ≤ g.players.length) then
    let g1 : Game :=
      { g with deck := freshDeck, discard_pile := [],
               has_discarded := false, pending_discard := none }
    let g2 := dealRounds g1 cardsPerPlayer
    let g3 : Game :=
      match g2.deck with
      | [] => g2
      | c :: rest =>
          { g2 with deck := rest, discard_pile := g2.discard_pile ++ [c] }
    let g4 : Game :=
      match g3.player_order with
      | [] => { g3 with game_started := true }
      | pid :: _ =>
          { g3 with current_turn_player_id := some pid, game_started := true }
    (g4, true)
  else
    (g, false)

/-- Embedding of `Game.next_turn`: cyclic advance with the `ValueError` fallback. -/
def nextTurn (g : Game) : Game :=
  if !g.game_started || g.player_order.isEmpty ||
      g.current_turn_player_id.isNone then
    g
  else
    match g.current_turn_player_id with
    | none => g
    | some cur =>
        match g.player_order.findIdx? (fun pid => pid == cur) with
        | some i =>
            { g with
              current_turn_player_id :=
                g.player_order.get? ((i + 1) % g.player_order.length),
              has_discarded := false, pending_discard := none }
        | none =>
            match g.player_order with
            | [] => { g with current_turn_player_id := none }
            | pid :: _ =>
                { g with current_turn_player_id := some pid,
                         has_discarded := false, pending_discard := none }

/-- The action messages `Game.handle_action` dispatches on.  A
`discard_card` message optionally carries a card reference (absent or
falsy `card` fields are `none`); unknown action strings behave like
`take_pending_discard` (no branch taken). -/
inductive ActionMsg where
  | discard_card (card : Option Card)
  | draw_card
  | draw_from_discard_pile
  | same_number_skip
  | show'
  | new_game
  | take_pending_discard
deriving DecidableEq, Repr

/-- The per-action dispatch of `Game.handle_action`, reached after the
game-started, turn and player-lookup guards: `player` is
`self.players[player_id]`.  `freshDeck` is the shuffled deck a nested
`start_game` (from `new_game`) would build.  In the `discard_card`
branch the source collects `cards_to_remove` (every hand card of the
named card's value) and then removes each of them from the hand with
`list.remove`; since that list is exactly the sublist of matching cards,
the resulting hand is the sublist of non-matching cards, written here
directly as a `filter`. -/
def handleBody (freshDeck : List Card) (pid : Nat) (player : Player)
    (g : Game) : ActionMsg → Game × Bool × Bool
  | .discard_card cardOpt =>
    if g.pending_discard.isNone && !g.has_discarded then
      match cardOpt with
      | some card =>
          let v := getCardValue card
          let cardsToRemove :=
            player.hand.filter (fun c => getCardValue c == v)
          if cardsToRemove.isEmpty then (g, false, false)
          else
            ({ g with players := updateHand g.players pid
                        (fun h => h.filter (fun c => getCardValue c != v)),
                      pending_discard := some (cardsToRemove, pid),
                      has_discarded := true }, true, false)
      | none => (g, false, false)
    else (g, false, false)
  | .draw_card =>
    match g.pending_discard, g.has_discarded with
    | some pd, true =>
        match g.deck with
        | [] => (g, false, false)
        | c :: rest =>
            ({ g with deck := rest,
                      players := updateHand g.players pid (· ++ [c]),
                      discard_pile := g.discard_pile ++ pd.1,
                      pending_discard := none, has_discarded := false },
             true, true)
    | _, _ => (g, false, false)
  | .draw_from_discard_pile =>
    match g.pending_discard, g.has_discarded, g.discard_pile.getLast? with
    | some pd, true, some top =>
        ({ g with discard_pile := g.discard_pile.dropLast ++ pd.1,
                  players := updateHand g.players pid (· ++ [top]),
                  pending_discard := none, has_discarded := false },
         true, true)
    | _, _, _ => (g, false, false)
  | .same_number_skip =>
    match g.pending_discard, g.has_discarded, g.discard_pile.getLast? with
    | some pd, true, some top =>
        if pd.1.any (fun c => getCardValue c == getCardValue top) then
          ({ g with discard_pile := g.discard_pile ++ pd.1,
                    pending_discard := none, has_discarded := false },
           true, true)
        else (g, false, false)
    | _, _, _ => (g, false, false)
  | .show' =>
    let minSum := listMin (g.players.map (fun p => handSum p.hand))
    let results :=
      g.players.foldl
        (fun m p =>
          assocSet m p.pid
            (if handSum p.hand == minSum then ShowResult.winner
             else ShowResult.loser))
        (g.show_results.getD [])
    ({ g with show_results := some results }, true, false)
  | .new_game =>
    let g1 : Game := { g with show_results := none }
    ((startGame freshDeck 7 g1).1, true, false)
  | .take_pending_discard => (g, false, false)

/-- Embedding of `Game.handle_action(player_id, action_data)`: the game-started, turn
and player-lookup guards, then the per-action dispatch.  Returns the new
state together with `(action_processed, advance_turn)`.  A failed player
lookup (`self.players[player_id]` would raise, but the turn guard makes
this unreachable for a current player) is modelled as a rejection. -/
def handleAction (freshDeck : List Card) (pid : Nat) (a : ActionMsg)
    (g : Game) : Game × Bool × Bool :=
  if !g.game_started then (g, false, false)
  else if g.current_turn_player_id != some pid then (g, false, false)
  else
    match findPlayer g.players pid with
    | none => (g, false, false)
    | some player => handleBody freshDeck pid player g a

/-- One full driver step, as performed by `client_handler`: handle the
action, then call `next_turn()` when the action was processed and
`advance_turn` is set.  Returns the state and `action_processed`. -/
def stepGame (freshDeck : List Card) (pid : Nat) (a : ActionMsg) (g : Game) :
    Game × Bool :=
  let r := handleAction freshDeck pid a g
  if r.2.1 && r.2.2 then (nextTurn r.1, r.2.1) else (r.1, r.2.1)

/-- The per-player view assembled by `Game.get_game_state`. -/
structure GameView where
  my_hand : List String
  my_id : Nat
  players_info : List (Nat × String × Nat)
  deck_size : Nat
  discard_pile_top : Option String
  current_turn_player_id : Option Nat
  game_started : Bool
  player_order : List Nat
  pending_discard_view : Option (List String)
  pending_discard_player : Option Nat
  show_result : Option ShowResult
deriving DecidableEq, Repr

/-- Embedding of `Game.get_game_state(player_id)`: the information-hiding projection. -/
def getGameState (g : Game) (pid : Nat) : Option GameView :=
  match findPlayer g.players pid with
  | none => none
  | some player =>
      some
        { my_hand := player.hand.map cardToString,
          my_id := pid,
          players_info :=
            g.players.map (fun p => (p.pid, p.name, p.hand.length)),
          deck_size := g.deck.length,
          discard_pile_top := g.discard_pile.getLast?.map cardToString,
          current_turn_player_id := g.current_turn_player_id,
          game_started := g.game_started,
          player_order := g.player_order,
          pending_discard_view :=
            g.pending_discard.map (fun pd => pd.1.map cardToString),
          pending_discard_player := g.pending_discard.map (fun pd => pd.2),
          show_result := g.show_results.bind (fun m => assocGet m pid) }

/-- Reachability by driver steps (any client, any action, any fresh deck)
from a given state. -/
inductive Reachable : Game → Game → Prop
  | refl (g : Game) : Reachable g g
  | step {g0 g : Game} (d : List Card) (pid : Nat) (a : ActionMsg) :
      Reachable g0 g → Reachable g0 (stepGame d pid a g).1

/-- Total number of cards held in hands. -/
def handsTotal (ps : List Player) : Nat :=
  (ps.map (fun p => p.hand.length)).sum

/-- Number of cards in the pending discard, zero if there is none. -/
def pendingCount (pd : Option (List Card × Nat)) : Nat :=
  match pd with
  | none => 0
  | some pd => pd.1.length

/-- Total number of cards in the system: deck, all hands, discard pile,
and the pending discard if one exists. -/
def cardCount (g : Game) : Nat :=
  g.deck.length + handsTotal g.players + g.discard_pile.length +
    pendingCount g.pending_discard


/-! ### Helper lemmas: players list -/

theorem findPlayer_cons (p : Player) (ps : List Player) (pid : Nat) :
    findPlayer (p :: ps) pid
      = if p.pid = pid then some p else findPlayer ps pid := by
  by_cases hp : p.pid = pid
  · rw [if_pos hp]
    exact List.find?_cons_of_pos _ (by simp [hp])
  · rw [if_neg hp]
    exact List.find?_cons_of_neg _ (by simp [hp])

theorem updateHand_cons (p : Player) (ps : List Player) (pid : Nat)
    (f : List Card → List Card) :
    updateHand (p :: ps) pid f
      = (if p.pid = pid then { p with hand := f p.hand } else p)
          :: updateHand ps pid f := rfl

theorem handsTotal_cons (p : Player) (ps : List Player) :
    handsTotal (p :: ps) = p.hand.length + handsTotal ps := by
  simp [handsTotal]

theorem updateHand_pid_map (ps : List Player) (pid : Nat)
    (f : List Card → List Card) :
    (updateHand ps pid f).map Player.pid = ps.map Player.pid := by
  simp only [updateHand, List.map_map]
  apply List.map_congr_left
  intro p _
  by_cases hp : p.pid = pid <;> simp [hp, Function.comp]

theorem updateHand_of_not_mem (ps : List Player) (pid : Nat)
    (f : List Card → List Card) (h : pid ∉ ps.map Player.pid) :
    updateHand ps pid f = ps := by
  induction ps with
  | nil => rfl
  | cons p ps ih =>
      simp only [List.map_cons, List.mem_cons, not_or] at h
      rw [updateHand_cons, if_neg (fun hc => h.1 hc.symm), ih h.2]

theorem findPlayer_isSome_of_mem (ps : List Player) (pid : Nat)
    (h : pid ∈ ps.map Player.pid) : ∃ q, findPlayer ps pid = some q := by
  induction ps with
  | nil => simp at h
  | cons p ps ih =>
      rw [findPlayer_cons]
      by_cases hp : p.pid = pid
      · exact ⟨p, by rw [if_pos hp]⟩
      · rw [if_neg hp]
        apply ih
        simp only [List.map_cons, List.mem_cons] at h
        rcases h with h | h
        · exact absurd h.symm hp
        · exact h

theorem findPlayer_mem (ps : List Player) (pid : Nat) (q : Player)
    (h : findPlayer ps pid = some q) : q ∈ ps ∧ q.pid = pid := by
  refine ⟨List.mem_of_find?_eq_some h, ?_⟩
  have hq := List.find?_some h
  simpa using hq

theorem findPlayer_updateHand_self (ps : List Player) (pid : Nat)
    (f : List Card → List Card) (q : Player)
    (h : findPlayer ps pid = some q) :
    findPlayer (updateHand ps pid f) pid
      = some { q with hand := f q.hand } := by
  induction ps with
  | nil => simp [findPlayer] at h
  | cons p ps ih =>
      rw [findPlayer_cons] at h
      rw [updateHand_cons]
      by_cases hp : p.pid = pid
      · rw [if_pos hp] at h
        injection h with h
        subst h
        rw [if_pos hp, findPlayer_cons]
        simp [hp]
      · rw [if_neg hp] at h
        rw [if_neg hp, findPlayer_cons, if_neg hp]
        exact ih h

theorem findPlayer_updateHand_ne (ps : List Player) (pid pid' : Nat)
    (f : List Card → List Card) (h : pid' ≠ pid) :
    findPlayer (updateHand ps pid f) pid' = findPlayer ps pid' := by
  induction ps with
  | nil => rfl
  | cons p ps ih =>
      by_cases hp : p.pid = pid
      · have hp' : p.pid ≠ pid' := fun hc => h (hc.symm.trans hp)
        simp [updateHand_cons, findPlayer_cons, hp, hp', ih, Ne.symm h]
      · by_cases hp' : p.pid = pid'
        · simp [updateHand_cons, findPlayer_cons, hp, hp', h]
        · simp [updateHand_cons, findPlayer_cons, hp, hp', ih]

theorem handsTotal_updateHand (ps : List Player) (pid : Nat)
    (f : List Card → List Card) (q : Player)
    (hnd : (ps.map Player.pid).Nodup) (hq : findPlayer ps pid = some q) :
    handsTotal (updateHand ps pid f) + q.hand.length
      = handsTotal ps + (f q.hand).length := by
  induction ps with
  | nil => simp [findPlayer] at hq
  | cons p ps ih =>
      simp only [List.map_cons, List.nodup_cons] at hnd
      rw [findPlayer_cons] at hq
      rw [updateHand_cons]
      by_cases hp : p.pid = pid
      · rw [if_pos hp] at hq
        injection hq with hq
        subst hq
        rw [if_pos hp, handsTotal_cons, handsTotal_cons,
            updateHand_of_not_mem ps pid f (hp ▸ hnd.1)]
        simp
        omega
      · rw [if_neg hp] at hq
        rw [if_neg hp, handsTotal_cons, handsTotal_cons]
        have hrec := ih hnd.2 hq
        omega

theorem filter_length_split (l : List Card) (v : Nat) :
    (l.filter (fun c => getCardValue c == v)).length +
      (l.filter (fun c => getCardValue c != v)).length = l.length := by
  induction l with
  | nil => rfl
  | cons c l ih =>
      by_cases hc : getCardValue c = v <;>
        simp [List.filter_cons, hc, ih] <;> omega

theorem updateHand_length (ps : List Player) (pid : Nat)
    (f : List Card → List Card) :
    (updateHand ps pid f).length = ps.length := by
  simp [updateHand]

theorem dealOne_fields (g : Game) (pid : Nat) :
    (dealOne g pid).player_order = g.player_order ∧
    (dealOne g pid).current_turn_player_id = g.current_turn_player_id ∧
    (dealOne g pid).game_started = g.game_started ∧
    (dealOne g pid).has_discarded = g.has_discarded ∧
    (dealOne g pid).pending_discard = g.pending_discard ∧
    (dealOne g pid).discard_pile = g.discard_pile ∧
    (dealOne g pid).show_results = g.show_results ∧
    (dealOne g pid).players.map Player.pid = g.players.map Player.pid ∧
    (dealOne g pid).players.length = g.players.length := by
  cases h : g.deck <;>
    simp [dealOne, h, updateHand_pid_map, updateHand_length]

theorem dealToAll_fields (order : List Nat) (g : Game) :
    (dealToAll g order).player_order = g.player_order ∧
    (dealToAll g order).current_turn_player_id = g.current_turn_player_id ∧
    (dealToAll g order).game_started = g.game_started ∧
    (dealToAll g order).has_discarded = g.has_discarded ∧
    (dealToAll g order).pending_discard = g.pending_discard ∧
    (dealToAll g order).discard_pile = g.discard_pile ∧
    (dealToAll g order).show_results = g.show_results ∧
    (dealToAll g order).players.map Player.pid = g.players.map Player.pid ∧
    (dealToAll g order).players.length = g.players.length := by
  induction order generalizing g with
  | nil => exact ⟨rfl, rfl, rfl, rfl, rfl, rfl, rfl, rfl, rfl⟩
  | cons a order ih =>
      have h1 : dealToAll g (a :: order) = dealToAll (dealOne g a) order := rfl
      obtain ⟨e1, e2, e3, e4, e5, e6, e7, e8, e9⟩ := dealOne_fields g a
      obtain ⟨f1, f2, f3, f4, f5, f6, f7, f8, f9⟩ := ih (dealOne g a)
      rw [h1]
      exact ⟨f1.trans e1, f2.trans e2, f3.trans e3, f4.trans e4, f5.trans e5,
             f6.trans e6, f7.trans e7, f8.trans e8, f9.trans e9⟩

theorem dealRounds_fields (n : Nat) (g : Game) :
    (dealRounds g n).player_order = g.player_order ∧
    (dealRounds g n).current_turn_player_id = g.current_turn_player_id ∧
    (dealRounds g n).game_started = g.game_started ∧
    (dealRounds g n).has_discarded = g.has_discarded ∧
    (dealRounds g n).pending_discard = g.pending_discard ∧
    (dealRounds g n).discard_pile = g.discard_pile ∧
    (dealRounds g n).show_results = g.show_results ∧
    (dealRounds g n).players.map Player.pid = g.players.map Player.pid ∧
    (dealRounds g n).players.length = g.players.length := by
  induction n generalizing g with
  | zero => exact ⟨rfl, rfl, rfl, rfl, rfl, rfl, rfl, rfl, rfl⟩
  | succ n ih =>
      have h1 : dealRounds g (n + 1)
          = dealRounds (dealToAll g g.player_order) n := rfl
      obtain ⟨e1, e2, e3, e4, e5, e6, e7, e8, e9⟩ :=
        dealToAll_fields g.player_order g
      obtain ⟨f1, f2, f3, f4, f5, f6, f7, f8, f9⟩ :=
        ih (dealToAll g g.player_order)
      rw [h1]
      exact ⟨f1.trans e1, f2.trans e2, f3.trans e3, f4.trans e4, f5.trans e5,
             f6.trans e6, f7.trans e7, f8.trans e8, f9.trans e9⟩

theorem cardCount_dealOne (g : Game) (pid : Nat)
    (hnd : (g.players.map Player.pid).Nodup)
    (hmem : pid ∈ g.players.map Player.pid) :
    cardCount (dealOne g pid) = cardCount g := by
  cases h : g.deck with
  | nil => simp [dealOne, h]
  | cons c rest =>
      obtain ⟨q, hq⟩ := findPlayer_isSome_of_mem _ _ hmem
      have hh := handsTotal_updateHand g.players pid (· ++ [c]) q hnd hq
      simp only [List.length_append, List.length_cons, List.length_nil] at hh
      simp only [cardCount, dealOne, h, List.length_cons]
      omega

theorem cardCount_dealToAll (order : List Nat) (g : Game)
    (hnd : (g.players.map Player.pid).Nodup)
    (hsub : ∀ x ∈ order, x ∈ g.players.map Player.pid) :
    cardCount (dealToAll g order) = cardCount g := by
  induction order generalizing g with
  | nil => rfl
  | cons a order ih =>
      have h1 : dealToAll g (a :: order) = dealToAll (dealOne g a) order := rfl
      obtain ⟨-, -, -, -, -, -, -, e8, -⟩ := dealOne_fields g a
      rw [h1, ih (dealOne g a) (e8 ▸ hnd) (fun x hx => e8 ▸ hsub x (List.mem_cons_of_mem a hx)),
          cardCount_dealOne g a hnd (hsub a (List.mem_cons_self a order))]

theorem cardCount_dealRounds (n : Nat) (g : Game)
    (hnd : (g.players.map Player.pid).Nodup)
    (hsub : ∀ x ∈ g.player_order, x ∈ g.players.map Player.pid) :
    cardCount (dealRounds g n) = cardCount g := by
  induction n generalizing g with
  | zero => rfl
  | succ n ih =>
      have h1 : dealRounds g (n + 1)
          = dealRounds (dealToAll g g.player_order) n := rfl
      obtain ⟨e1, -, -, -, -, -, -, e8, -⟩ :=
        dealToAll_fields g.player_order g
      rw [h1, ih (dealToAll g g.player_order) (e8 ▸ hnd)
            (fun x hx => e8 ▸ hsub x (e1 ▸ hx)),
          cardCount_dealToAll g.player_order g hnd hsub]

/-- The opening-card placement step of `start_game`. -/
def placeOpening (g : Game) : Game :=
  match g.deck with
  | [] => g
  | c :: rest => { g with deck := rest, discard_pile := g.discard_pile ++ [c] }

/-- The set-first-turn and mark-started step of `start_game`. -/
def setFirstTurn (g : Game) : Game :=
  match g.player_order with
  | [] => { g with game_started := true }
  | pid :: _ =>
      { g with current_turn_player_id := some pid, game_started := true }

theorem startGame_neg (d : List Card) (n : Nat) (g : Game)
    (h : g.game_started = true ∨ g.players.length < 2) :
    startGame d n g = (g, false) := by
  have hc : (!g.game_started && decide (2 ≤ g.players.length)) = false := by
    rcases h with h | h
    · simp [h]
    · simp
      omega
  simp [startGame, hc]

theorem startGame_pos_eq (d : List Card) (n : Nat) (g : Game)
    (hst : g.game_started = false) (h2 : 2 ≤ g.players.length) :
    startGame d n g
      = (setFirstTurn (placeOpening (dealRounds
          { g with deck := d, discard_pile := [],
                   has_discarded := false, pending_discard := none } n)),
         true) := by
  have hc : (!g.game_started && decide (2 ≤ g.players.length)) = true := by
    simp [hst, h2]
  rw [startGame, if_pos hc]
  rfl

theorem placeOpening_fields (g : Game) :
    (placeOpening g).players = g.players ∧
    (placeOpening g).player_order = g.player_order ∧
    (placeOpening g).current_turn_player_id = g.current_turn_player_id ∧
    (placeOpening g).game_started = g.game_started ∧
    (placeOpening g).has_discarded = g.has_discarded ∧
    (placeOpening g).pending_discard = g.pending_discard ∧
    (placeOpening g).show_results = g.show_results := by
  cases h : g.deck <;> simp [placeOpening, h]

theorem cardCount_placeOpening (g : Game) :
    cardCount (placeOpening g) = cardCount g := by
  cases h : g.deck with
  | nil => simp [placeOpening, cardCount, h]
  | cons c rest =>
      simp [placeOpening, cardCount, h]
      omega

theorem setFirstTurn_fields (g : Game) :
    (setFirstTurn g).players = g.players ∧
    (setFirstTurn g).player_order = g.player_order ∧
    (setFirstTurn g).deck = g.deck ∧
    (setFirstTurn g).discard_pile = g.discard_pile ∧
    (setFirstTurn g).has_discarded = g.has_discarded ∧
    (setFirstTurn g).pending_discard = g.pending_discard ∧
    (setFirstTurn g).show_results = g.show_results ∧
    (setFirstTurn g).game_started = true := by
  cases h : g.player_order <;> simp [setFirstTurn, h]

theorem setFirstTurn_current (g : Game) (pid : Nat) (rest : List Nat)
    (h : g.player_order = pid :: rest) :
    (setFirstTurn g).current_turn_player_id = some pid := by
  simp [setFirstTurn, h]

theorem cardCount_setFirstTurn (g : Game) :
    cardCount (setFirstTurn g) = cardCount g := by
  cases h : g.player_order <;> simp [setFirstTurn, cardCount, h]

theorem cardCount_startGame (d : List Card) (n : Nat) (g : Game)
    (hnd : (g.players.map Player.pid).Nodup)
    (hsub : ∀ x ∈ g.player_order, x ∈ g.players.map Player.pid)
    (hst : g.game_started = false) (h2 : 2 ≤ g.players.length) :
    cardCount (startGame d n g).1 = d.length + handsTotal g.players := by
  rw [startGame_pos_eq d n g hst h2]
  have h3 := cardCount_dealRounds n
      { g with deck := d, discard_pile := [], has_discarded := false,
               pending_discard := none }
      (by simpa using hnd) (by simpa using hsub)
  rw [cardCount_setFirstTurn, cardCount_placeOpening, h3]
  simp [cardCount, pendingCount]

theorem nextTurn_fields (g : Game) :
    (nextTurn g).players = g.players ∧
    (nextTurn g).deck = g.deck ∧
    (nextTurn g).discard_pile = g.discard_pile ∧
    (nextTurn g).player_order = g.player_order ∧
    (nextTurn g).game_started = g.game_started ∧
    (nextTurn g).show_results = g.show_results ∧
    ((nextTurn g).pending_discard = g.pending_discard ∨
      (nextTurn g).pending_discard = none) := by
  unfold nextTurn
  split
  · exact ⟨rfl, rfl, rfl, rfl, rfl, rfl, Or.inl rfl⟩
  · split
    · exact ⟨rfl, rfl, rfl, rfl, rfl, rfl, Or.inl rfl⟩
    · split
      · exact ⟨rfl, rfl, rfl, rfl, rfl, rfl, Or.inr rfl⟩
      · split
        · exact ⟨rfl, rfl, rfl, rfl, rfl, rfl, Or.inl rfl⟩
        · exact ⟨rfl, rfl, rfl, rfl, rfl, rfl, Or.inr rfl⟩

theorem cardCount_nextTurn (g : Game) (h : g.pending_discard = none) :
    cardCount (nextTurn g) = cardCount g := by
  obtain ⟨e1, e2, e3, -, -, -, e7⟩ := nextTurn_fields g
  rcases e7 with e7 | e7 <;>
    simp [cardCount, e1, e2, e3, e7, h]


theorem handleAction_not_started (d : List Card) (pid : Nat) (a : ActionMsg)
    (g : Game) (h : g.game_started = false) :
    handleAction d pid a g = (g, false, false) := by
  simp [handleAction, h]

theorem handleAction_wrong_turn (d : List Card) (pid : Nat) (a : ActionMsg)
    (g : Game) (hst : g.game_started = true)
    (h : g.current_turn_player_id ≠ some pid) :
    handleAction d pid a g = (g, false, false) := by
  simp [handleAction, hst, h]

theorem handleAction_no_player (d : List Card) (pid : Nat) (a : ActionMsg)
    (g : Game) (hst : g.game_started = true)
    (hturn : g.current_turn_player_id = some pid)
    (h : findPlayer g.players pid = none) :
    handleAction d pid a g = (g, false, false) := by
  simp [handleAction, hst, hturn, h]

theorem handleAction_accepted (d : List Card) (pid : Nat) (a : ActionMsg)
    (g : Game) (player : Player) (hst : g.game_started = true)
    (hturn : g.current_turn_player_id = some pid)
    (heq : findPlayer g.players pid = some player) :
    handleAction d pid a g = handleBody d pid player g a := by
  simp [handleAction, hst, hturn, heq]

theorem handleBody_spec_count (d : List Card) (pid : Nat) (player : Player)
    (g : Game) (a : ActionMsg)
    (hnd : (g.players.map Player.pid).Nodup)
    (hst : g.game_started = true)
    (heq : findPlayer g.players pid = some player) :
    cardCount (handleBody d pid player g a).1 = cardCount g ∧
    ((handleBody d pid player g a).2.2 = true →
      (handleBody d pid player g a).1.pending_discard = none) := by
  cases a with
  | take_pending_discard => simp [handleBody]
  | show' => exact ⟨by simp [handleBody, cardCount], by simp [handleBody]⟩
  | new_game =>
      have hng := startGame_neg d 7 { g with show_results := none }
        (Or.inl (by simpa using hst))
      simp only [handleBody, hng]
      exact ⟨by simp [cardCount], by simp⟩
  | discard_card cardOpt =>
      cases cardOpt with
      | none =>
          simp only [handleBody]
          split <;> simp
      | some card =>
          simp only [handleBody]
          split
          next hcond =>
            split
            next hemp => simp
            next hemp =>
                refine ⟨?_, by simp⟩
                have hpn : g.pending_discard = none := by
                  have h1 : g.pending_discard.isNone = true := by
                    rw [Bool.and_eq_true] at hcond
                    exact hcond.1
                  simpa [Option.isNone_iff_eq_none] using h1
                have hupd : handsTotal (updateHand g.players pid
                      (fun h => h.filter
                        (fun c => getCardValue c != getCardValue card)))
                    + player.hand.length
                    = handsTotal g.players + (player.hand.filter
                        (fun c => getCardValue c != getCardValue card)).length :=
                  handsTotal_updateHand g.players pid _ player hnd heq
                have hsplit :=
                  filter_length_split player.hand (getCardValue card)
                simp only [cardCount, pendingCount, hpn]
                omega
          next hcond => simp
  | draw_card =>
      simp only [handleBody]
      split
      next pd hpd hhd =>
        split
        next hdeck => simp
        next c rest hdeck =>
            refine ⟨?_, by simp⟩
            have hupd : handsTotal (updateHand g.players pid (· ++ [c]))
                  + player.hand.length
                = handsTotal g.players + (player.hand ++ [c]).length :=
              handsTotal_updateHand g.players pid _ player hnd heq
            simp only [List.length_append, List.length_cons,
              List.length_nil] at hupd
            simp only [cardCount, pendingCount, hpd, hdeck,
              List.length_cons, List.length_append]
            omega
      next => simp
  | draw_from_discard_pile =>
      simp only [handleBody]
      split
      next pd top hpd hhd hlast =>
        refine ⟨?_, by simp⟩
        have hupd : handsTotal (updateHand g.players pid (· ++ [top]))
              + player.hand.length
            = handsTotal g.players + (player.hand ++ [top]).length :=
          handsTotal_updateHand g.players pid _ player hnd heq
        simp only [List.length_append, List.length_cons,
          List.length_nil] at hupd
        have hne : g.discard_pile ≠ [] := by
          intro hc
          rw [hc] at hlast
          simp at hlast
        have hlen : 1 ≤ g.discard_pile.length := List.length_pos.mpr hne
        simp only [cardCount, pendingCount, hpd, List.length_append,
          List.length_dropLast]
        omega
      next => simp
  | same_number_skip =>
      simp only [handleBody]
      split
      next pd top hpd hhd hlast =>
        split
        next hmatch =>
          refine ⟨?_, by simp⟩
          simp only [cardCount, pendingCount, hpd, List.length_append]
          omega
        next hmatch => simp
      next => simp

theorem cardCount_handleAction (d : List Card) (pid : Nat) (a : ActionMsg)
    (g : Game) (hnd : (g.players.map Player.pid).Nodup) :
    cardCount (handleAction d pid a g).1 = cardCount g ∧
    ((handleAction d pid a g).2.2 = true →
      (handleAction d pid a g).1.pending_discard = none) := by
  by_cases hst : g.game_started = true
  · by_cases hturn : g.current_turn_player_id = some pid
    · cases hp : findPlayer g.players pid with
      | none => rw [handleAction_no_player d pid a g hst hturn hp]; simp
      | some player =>
          rw [handleAction_accepted d pid a g player hst hturn hp]
          exact handleBody_spec_count d pid player g a hnd hst hp
    · rw [handleAction_wrong_turn d pid a g hst hturn]; simp
  · have hst' : g.game_started = false := by
      simpa using hst
    rw [handleAction_not_started d pid a g hst']; simp

theorem cardCount_stepGame (d : List Card) (pid : Nat) (a : ActionMsg)
    (g : Game) (hnd : (g.players.map Player.pid).Nodup) :
    cardCount (stepGame d pid a g).1 = cardCount g := by
  obtain ⟨h1, h2⟩ := cardCount_handleAction d pid a g hnd
  simp only [stepGame]
  by_cases hb : ((handleAction d pid a g).2.1 &&
      (handleAction d pid a g).2.2) = true
  · rw [if_pos hb]
    have hadv : (handleAction d pid a g).2.2 = true := by
      rw [Bool.and_eq_true] at hb
      exact hb.2
    show cardCount (nextTurn (handleAction d pid a g).1) = cardCount g
    rw [cardCount_nextTurn _ (h2 hadv), h1]
  · rw [if_neg hb]
    exact h1

/-- Pending-discard well-formedness (the property of claim C10): an
existing pending discard is a non-empty group of same-valued cards owned
by the current-turn player, with `has_discarded` set; no pending discard
means `has_discarded` is clear. -/
def PendingInv (g : Game) : Prop :=
  (∀ cs q, g.pending_discard = some (cs, q) →
      cs ≠ [] ∧ (∃ v, ∀ c ∈ cs, getCardValue c = v) ∧
      g.current_turn_player_id = some q ∧ g.has_discarded = true) ∧
  (g.pending_discard = none → g.has_discarded = false)

/-- Invariant of in-game states reachable from a successful `start_game`:
the game is started, player ids are distinct, the current turn belongs to
a player in the turn order, and the pending discard is well-formed. -/
def GoodState (g : Game) : Prop :=
  g.game_started = true ∧
  (g.players.map Player.pid).Nodup ∧
  (∀ x ∈ g.player_order, x ∈ g.players.map Player.pid) ∧
  (∃ c, g.current_turn_player_id = some c ∧ c ∈ g.player_order) ∧
  PendingInv g

theorem findIdx_of_mem {l : List Nat} {c : Nat} (h : c ∈ l) :
    ∃ i, l.findIdx? (fun x => x == c) = some i := by
  cases hf : l.findIdx? (fun x => x == c) with
  | some i => exact ⟨i, rfl⟩
  | none =>
      rw [List.findIdx?_eq_none_iff] at hf
      have hc := hf c h
      simp at hc

theorem get?_mem_of_lt {l : List Nat} {j : Nat} (h : j < l.length) :
    ∃ x, l.get? j = some x ∧ x ∈ l :=
  ⟨l.get ⟨j, h⟩, List.get?_eq_get h, List.get_mem l j h⟩

theorem nextTurn_advance (g : Game) (c : Nat) (i : Nat)
    (hst : g.game_started = true) (hcur : g.current_turn_player_id = some c)
    (hord : g.player_order ≠ [])
    (hidx : g.player_order.findIdx? (fun x => x == c) = some i) :
    nextTurn g
      = { g with
          current_turn_player_id :=
            g.player_order.get? ((i + 1) % g.player_order.length),
          has_discarded := false, pending_discard := none } := by
  unfold nextTurn
  rw [if_neg]
  · rw [hcur]
    simp only [hidx]
  · simp [hst, hcur, List.isEmpty_iff, hord]

theorem nextTurn_goodState (g : Game) (h : GoodState g) :
    GoodState (nextTurn g) := by
  obtain ⟨hst, hnd, hsub, ⟨c, hcur, hmem⟩, hpend⟩ := h
  have hord : g.player_order ≠ [] := List.ne_nil_of_mem hmem
  obtain ⟨i, hidx⟩ := findIdx_of_mem hmem
  rw [nextTurn_advance g c i hst hcur hord hidx]
  have hlen : 0 < g.player_order.length := List.length_pos.mpr hord
  have hj : (i + 1) % g.player_order.length < g.player_order.length :=
    Nat.mod_lt _ hlen
  obtain ⟨x, hx, hxmem⟩ := get?_mem_of_lt hj
  refine ⟨hst, hnd, hsub, ⟨x, by simpa using hx, hxmem⟩, ?_, ?_⟩
  · intro cs q hcs
    simp at hcs
  · intro _
    rfl

theorem handleBody_goodState (d : List Card) (pid : Nat) (player : Player)
    (g : Game) (a : ActionMsg) (h : GoodState g)
    (hturn : g.current_turn_player_id = some pid) :
    GoodState (handleBody d pid player g a).1 := by
  obtain ⟨hst, hnd, hsub, ⟨c, hcur, hmem⟩, hpInv, hpNone⟩ := h
  cases a with
  | take_pending_discard =>
      exact ⟨hst, hnd, hsub, ⟨c, hcur, hmem⟩, hpInv, hpNone⟩
  | show' =>
      refine ⟨by simp [handleBody, hst], by simp [handleBody, hnd],
        by simpa [handleBody] using hsub, ?_, ?_, ?_⟩
      · exact ⟨c, by simp [handleBody, hcur], by simpa [handleBody] using hmem⟩
      · intro cs q hcs
        simp only [handleBody] at hcs
        have hres := hpInv cs q hcs
        refine ⟨hres.1, hres.2.1, by simpa [handleBody] using hres.2.2.1,
          by simpa [handleBody] using hres.2.2.2⟩
      · intro hn
        simp only [handleBody] at hn
        simpa [handleBody] using hpNone hn
  | new_game =>
      have hng := startGame_neg d 7 { g with show_results := none }
        (Or.inl (by simpa using hst))
      simp only [handleBody, hng]
      refine ⟨by simpa using hst, by simpa using hnd, by simpa using hsub,
        ⟨c, by simpa using hcur, by simpa using hmem⟩, ?_, ?_⟩
      · intro cs q hcs
        simp only at hcs
        have hres := hpInv cs q hcs
        exact ⟨hres.1, hres.2.1, by simpa using hres.2.2.1,
          by simpa using hres.2.2.2⟩
      · intro hn
        simp only at hn
        simpa using hpNone hn
  | discard_card cardOpt =>
      cases cardOpt with
      | none =>
          simp only [handleBody]
          split
          · exact ⟨hst, hnd, hsub, ⟨c, hcur, hmem⟩, hpInv, hpNone⟩
          · exact ⟨hst, hnd, hsub, ⟨c, hcur, hmem⟩, hpInv, hpNone⟩
      | some card =>
          simp only [handleBody]
          split
          next hcond =>
            split
            next hemp =>
              exact ⟨hst, hnd, hsub, ⟨c, hcur, hmem⟩, hpInv, hpNone⟩
            next hemp =>
                refine ⟨by simpa using hst,
                  by simpa [updateHand_pid_map] using hnd,
                  by simpa [updateHand_pid_map] using hsub,
                  ⟨c, by simpa using hcur, by simpa using hmem⟩, ?_, ?_⟩
                · intro cs q hcs
                  simp only [Option.some.injEq, Prod.mk.injEq] at hcs
                  obtain ⟨hcs1, hcs2⟩ := hcs
                  subst hcs1
                  subst hcs2
                  refine ⟨?_, ⟨getCardValue card, ?_⟩, ?_, rfl⟩
                  · intro hc
                    rw [← List.isEmpty_iff] at hc
                    exact hemp hc
                  · intro x hx
                    have := List.of_mem_filter hx
                    simpa using this
                  · simpa using hturn
                · intro hn
                  simp at hn
          next hcond =>
            exact ⟨hst, hnd, hsub, ⟨c, hcur, hmem⟩, hpInv, hpNone⟩
  | draw_card =>
      simp only [handleBody]
      split
      next pd hpd hhd =>
        split
        next hdeck =>
          exact ⟨hst, hnd, hsub, ⟨c, hcur, hmem⟩, hpInv, hpNone⟩
        next cc rest hdeck =>
            refine ⟨by simpa using hst,
              by simpa [updateHand_pid_map] using hnd,
              by simpa [updateHand_pid_map] using hsub,
              ⟨c, by simpa using hcur, by simpa using hmem⟩, ?_, ?_⟩
            · intro cs q hcs
              simp at hcs
            · intro _
              rfl
      next => exact ⟨hst, hnd, hsub, ⟨c, hcur, hmem⟩, hpInv, hpNone⟩
  | draw_from_discard_pile =>
      simp only [handleBody]
      split
      next pd top hpd hhd hlast =>
        refine ⟨by simpa using hst,
          by simpa [updateHand_pid_map] using hnd,
          by simpa [updateHand_pid_map] using hsub,
          ⟨c, by simpa using hcur, by simpa using hmem⟩, ?_, ?_⟩
        · intro cs q hcs
          simp at hcs
        · intro _
          rfl
      next => exact ⟨hst, hnd, hsub, ⟨c, hcur, hmem⟩, hpInv, hpNone⟩
  | same_number_skip =>
      simp only [handleBody]
      split
      next pd top hpd hhd hlast =>
        split
        next hmatch =>
          refine ⟨by simpa using hst, by simpa using hnd, by simpa using hsub,
            ⟨c, by simpa using hcur, by simpa using hmem⟩, ?_, ?_⟩
          · intro cs q hcs
            simp at hcs
          · intro _
            rfl
        next hmatch =>
          exact ⟨hst, hnd, hsub, ⟨c, hcur, hmem⟩, hpInv, hpNone⟩
      next => exact ⟨hst, hnd, hsub, ⟨c, hcur, hmem⟩, hpInv, hpNone⟩

theorem stepGame_goodState (d : List Card) (pid : Nat) (a : ActionMsg)
    (g : Game) (h : GoodState g) : GoodState (stepGame d pid a g).1 := by
  simp only [stepGame]
  by_cases hst : g.game_started = true
  · by_cases hturn : g.current_turn_player_id = some pid
    · cases hp : findPlayer g.players pid with
      | none =>
          rw [handleAction_no_player d pid a g hst hturn hp]
          simpa using h
      | some player =>
          rw [handleAction_accepted d pid a g player hst hturn hp]
          have hb := handleBody_goodState d pid player g a h hturn
          by_cases hadv : ((handleBody d pid player g a).2.1 &&
              (handleBody d pid player g a).2.2) = true
          · rw [if_pos hadv]
            exact nextTurn_goodState _ hb
          · rw [if_neg hadv]
            exact hb
    · rw [handleAction_wrong_turn d pid a g hst hturn]
      simpa using h
  · have hst' : g.game_started = false := by simpa using hst
    rw [handleAction_not_started d pid a g hst']
    simpa using h

theorem startGame_goodState (d : List Card) (n : Nat) (g : Game)
    (hnd : (g.players.map Player.pid).Nodup)
    (horder : g.player_order = g.players.map Player.pid)
    (hst : g.game_started = false) (h2 : 2 ≤ g.players.length) :
    GoodState (startGame d n g).1 := by
  rw [startGame_pos_eq d n g hst h2]
  set g1 : Game :=
    { g with deck := d, discard_pile := [], has_discarded := false,
             pending_discard := none } with hg1
  show GoodState (setFirstTurn (placeOpening (dealRounds g1 n)))
  obtain ⟨d1, -, -, d4, d5, -, -, d8, -⟩ := dealRounds_fields n g1
  obtain ⟨p1, p2, -, -, p5, p6, -⟩ := placeOpening_fields (dealRounds g1 n)
  obtain ⟨s1, s2, -, -, s5, s6, -, s8⟩ :=
    setFirstTurn_fields (placeOpening (dealRounds g1 n))
  have horder3 : (placeOpening (dealRounds g1 n)).player_order
      = g.player_order := by
    rw [p2, d1]
  have hordne : (placeOpening (dealRounds g1 n)).player_order ≠ [] := by
    rw [horder3, horder]
    intro hc
    have hpe : g.players = [] := List.map_eq_nil_iff.mp hc
    rw [hpe] at h2
    simp at h2
  obtain ⟨pid0, rest, hcons⟩ :=
    List.exists_cons_of_ne_nil hordne
  refine ⟨s8, ?_, ?_, ?_, ?_, ?_⟩
  · rw [s1, p1, d8]
    simpa using hnd
  · intro x hx
    rw [s2, horder3, horder] at hx
    rw [s1, p1, d8]
    simpa using hx
  · refine ⟨pid0, setFirstTurn_current _ pid0 rest hcons, ?_⟩
    rw [s2, hcons]
    exact List.mem_cons_self pid0 rest
  · intro cs q hcs
    rw [s6, p6, d5] at hcs
    simp at hcs
  · intro _
    rw [s5, p5, d4]

theorem startGame_snd_true (d : List Card) (n : Nat) (g : Game)
    (h : (startGame d n g).2 = true) :
    g.game_started = false ∧ 2 ≤ g.players.length := by
  by_cases h1 : g.game_started = false
  · by_cases h2 : 2 ≤ g.players.length
    · exact ⟨h1, h2⟩
    · rw [startGame_neg d n g (Or.inr (by omega))] at h
      simp at h
  · rw [startGame_neg d n g (Or.inl (by simpa using h1))] at h
    simp at h

theorem reachable_goodState {g0 g : Game} (h0 : GoodState g0)
    (hr : Reachable g0 g) : GoodState g := by
  induction hr with
  | refl => exact h0
  | step d pid a hr ih => exact stepGame_goodState d pid a _ ih

theorem reachable_cardCount {g0 g : Game} (h0 : GoodState g0)
    (hr : Reachable g0 g) : cardCount g = cardCount g0 := by
  induction hr with
  | refl => rfl
  | step d pid a hr ih =>
      have hg := reachable_goodState h0 hr
      rw [cardCount_stepGame d pid a _ hg.2.1, ih]

theorem handsTotal_eq_zero (ps : List Player) (h : ∀ p ∈ ps, p.hand = []) :
    handsTotal ps = 0 := by
  induction ps with
  | nil => rfl
  | cons p ps ih =>
      rw [handsTotal_cons, h p (List.mem_cons_self p ps),
        ih (fun q hq => h q (List.mem_cons_of_mem p hq))]
      rfl

/-! ### Concrete example states -/

/-- A two-player lobby about to start (ids 1 and 2, empty hands). -/
def initEx : Game :=
  { players := [{ name := "Player 1", pid := 1, hand := [] },
                { name := "Player 2", pid := 2, hand := [] }],
    deck := fullDeck, current_turn_player_id := none,
    discard_pile := [], player_order := [1, 2], game_started := false,
    has_discarded := false, pending_discard := none, show_results := none }

/-- The started game obtained from `initEx` (deck dealt in `fullDeck`
order). -/
def gEx0 : Game := (startGame fullDeck 7 initEx).1

/-- State `gEx0` after player 1 discards the 2 of Hearts (group discard). -/
def gEx1 : Game :=
  (stepGame [] 1
    (ActionMsg.discard_card (some (Card.mk Suit.hearts Rank.r2))) gEx0).1

/-! ### Claim theorems -/

/-- C1: card conservation.  For every state reachable, by driver steps of
the handled actions, from a successful `start_game` on a fresh 52-card
deck with all hands empty, the deck, the hands, the discard pile and the
pending discard together hold exactly 52 cards; every accepted action
therefore preserves this sum. -/
theorem claim_card_conservation (init g : Game) (d : List Card) (n : Nat)
    (hnd : (init.players.map Player.pid).Nodup)
    (horder : init.player_order = init.players.map Player.pid)
    (hhands : ∀ p ∈ init.players, p.hand = [])
    (hd : d.length = 52)
    (hstart : (startGame d n init).2 = true)
    (hreach : Reachable (startGame d n init).1 g) :
    cardCount g = 52 := by
  obtain ⟨hst, h2⟩ := startGame_snd_true d n init hstart
  have hsub : ∀ x ∈ init.player_order, x ∈ init.players.map Player.pid := by
    intro x hx
    rwa [horder] at hx
  have hgood := startGame_goodState d n init hnd horder hst h2
  rw [reachable_cardCount hgood hreach,
    cardCount_startGame d n init hnd hsub hst h2,
    handsTotal_eq_zero init.players hhands, hd]

theorem claim_card_conservation_witness :
    cardCount (startGame fullDeck 7 initEx).1 = 52 :=
  claim_card_conservation initEx (startGame fullDeck 7 initEx).1 fullDeck 7
    (by decide) (by decide) (by decide) (by decide) (by decide)
    (Reachable.refl _)

/-- C10: pending-discard well-formedness.  In every state reachable from
a successful `start_game`, an existing pending discard has a non-empty
card list all of one rank-value, is owned by the current-turn player, and
coincides with `has_discarded = true`; absence of a pending discard
coincides with `has_discarded = false`. -/
theorem claim_pending_discard_wf (init g : Game) (d : List Card) (n : Nat)
    (hnd : (init.players.map Player.pid).Nodup)
    (horder : init.player_order = init.players.map Player.pid)
    (hstart : (startGame d n init).2 = true)
    (hreach : Reachable (startGame d n init).1 g) :
    (∀ cs q, g.pending_discard = some (cs, q) →
        cs ≠ [] ∧ (∃ v, ∀ c ∈ cs, getCardValue c = v) ∧
        g.current_turn_player_id = some q ∧ g.has_discarded = true) ∧
    (g.pending_discard = none → g.has_discarded = false) := by
  obtain ⟨hst, h2⟩ := startGame_snd_true d n init hstart
  have hgood := startGame_goodState d n init hnd horder hst h2
  have hg := reachable_goodState hgood hreach
  exact hg.2.2.2.2

theorem claim_pending_discard_wf_witness :
    (∀ cs q, gEx1.pending_discard = some (cs, q) →
        cs ≠ [] ∧ (∃ v, ∀ c ∈ cs, getCardValue c = v) ∧
        gEx1.current_turn_player_id = some q ∧ gEx1.has_discarded = true) ∧
    (gEx1.pending_discard = none → gEx1.has_discarded = false) :=
  claim_pending_discard_wf initEx gEx1 fullDeck 7 (by decide) (by decide)
    (by decide)
    (Reachable.step []
      1 (ActionMsg.discard_card (some (Card.mk Suit.hearts Rank.r2)))
      (Reachable.refl _))

theorem stepGame_of_reject (d : List Card) (pid : Nat) (a : ActionMsg)
    (g : Game) (h : handleAction d pid a g = (g, false, false)) :
    stepGame d pid a g = (g, false) := by
  simp [stepGame, h]

theorem handleBody_draw_no_pending (d : List Card) (pid : Nat)
    (player : Player) (g : Game) (h : g.pending_discard = none) :
    handleBody d pid player g ActionMsg.draw_card = (g, false, false) := by
  simp [handleBody, h]

theorem handleBody_drawpile_no_pending (d : List Card) (pid : Nat)
    (player : Player) (g : Game) (h : g.pending_discard = none) :
    handleBody d pid player g ActionMsg.draw_from_discard_pile
      = (g, false, false) := by
  simp [handleBody, h]

theorem handleBody_skip_no_pending (d : List Card) (pid : Nat)
    (player : Player) (g : Game) (h : g.pending_discard = none) :
    handleBody d pid player g ActionMsg.same_number_skip
      = (g, false, false) := by
  simp [handleBody, h]

theorem handleBody_discard_with_pending (d : List Card) (pid : Nat)
    (player : Player) (g : Game) (pd : List Card × Nat)
    (h : g.pending_discard = some pd) (cardOpt : Option Card) :
    handleBody d pid player g (ActionMsg.discard_card cardOpt)
      = (g, false, false) := by
  simp [handleBody, h]

/-- C7: discard-before-draw gating with atomicity.  In a started game,
`draw_card`, `draw_from_discard_pile` and `same_number_skip` by the
current player are rejected when no pending discard exists, and
`discard_card` is rejected when one exists; every such rejected action
returns the state unchanged. -/
theorem claim_discard_before_draw (d : List Card) (pid : Nat) (g : Game)
    (player : Player) (hst : g.game_started = true)
    (hturn : g.current_turn_player_id = some pid)
    (heq : findPlayer g.players pid = some player) :
    (g.pending_discard = none →
      stepGame d pid ActionMsg.draw_card g = (g, false) ∧
      stepGame d pid ActionMsg.draw_from_discard_pile g = (g, false) ∧
      stepGame d pid ActionMsg.same_number_skip g = (g, false)) ∧
    (∀ pd, g.pending_discard = some pd →
      ∀ cardOpt,
        stepGame d pid (ActionMsg.discard_card cardOpt) g = (g, false)) := by
  constructor
  · intro hpn
    refine ⟨?_, ?_, ?_⟩ <;>
      exact stepGame_of_reject _ _ _ _
        (by rw [handleAction_accepted d pid _ g player hst hturn heq]
            first
              | exact handleBody_draw_no_pending _ _ _ _ hpn
              | exact handleBody_drawpile_no_pending _ _ _ _ hpn
              | exact handleBody_skip_no_pending _ _ _ _ hpn)
  · intro pd hpd cardOpt
    exact stepGame_of_reject _ _ _ _
      (by rw [handleAction_accepted d pid _ g player hst hturn heq]
          exact handleBody_discard_with_pending _ _ _ _ pd hpd cardOpt)

/-- The group of cards of rank-value `v` in a hand (what `discard_card`
turns into the pending discard). -/
def discardGroup (hand : List Card) (v : Nat) : List Card :=
  hand.filter (fun c => getCardValue c == v)

/-- A hand with every card of rank-value `v` removed (what `discard_card`
leaves in the player's hand). -/
def removeGroup (hand : List Card) (v : Nat) : List Card :=
  hand.filter (fun c => getCardValue c != v)

/-- C2: group discard.  In a started game whose current player has not
yet discarded, an accepted `discard_card` naming a card of some
rank-value removes every card of that rank-value from the player's hand,
makes exactly those cards the pending discard owned by that player, and
does not advance the turn. -/
theorem claim_group_discard (d : List Card) (pid : Nat) (g : Game)
    (player : Player) (card : Card)
    (hst : g.game_started = true)
    (hturn : g.current_turn_player_id = some pid)
    (heq : findPlayer g.players pid = some player)
    (hhd : g.has_discarded = false)
    (hpn : g.pending_discard = none)
    (hhave : ∃ c ∈ player.hand, getCardValue c = getCardValue card) :
    (stepGame d pid (ActionMsg.discard_card (some card)) g).2 = true ∧
    (stepGame d pid (ActionMsg.discard_card (some card)) g).1.pending_discard
      = some (discardGroup player.hand (getCardValue card), pid) ∧
    findPlayer
        (stepGame d pid (ActionMsg.discard_card (some card)) g).1.players pid
      = some { player with
               hand := removeGroup player.hand (getCardValue card) } ∧
    (∀ q, q ≠ pid →
      findPlayer
          (stepGame d pid (ActionMsg.discard_card (some card)) g).1.players q
        = findPlayer g.players q) ∧
    (stepGame d pid
        (ActionMsg.discard_card (some card)) g).1.current_turn_player_id
      = g.current_turn_player_id := by
  have hne : (discardGroup player.hand (getCardValue card)).isEmpty
      = false := by
    obtain ⟨c, hc, hv⟩ := hhave
    have hmemf : c ∈ discardGroup player.hand (getCardValue card) :=
      List.mem_filter.mpr ⟨hc, by simp [hv]⟩
    cases hfil : discardGroup player.hand (getCardValue card) with
    | nil => rw [hfil] at hmemf; simp at hmemf
    | cons x xs => simp [hfil] at hmemf ⊢
  have hbody : handleBody d pid player g (ActionMsg.discard_card (some card))
      = ({ g with
           players := updateHand g.players pid
             (fun h => removeGroup h (getCardValue card)),
           pending_discard :=
             some (discardGroup player.hand (getCardValue card), pid),
           has_discarded := true }, true, false) := by
    have hne' := hne
    simp only [discardGroup] at hne'
    simp [handleBody, hpn, hhd, hne', discardGroup, removeGroup]
  have hstep : stepGame d pid (ActionMsg.discard_card (some card)) g
      = ({ g with
           players := updateHand g.players pid
             (fun h => removeGroup h (getCardValue card)),
           pending_discard :=
             some (discardGroup player.hand (getCardValue card), pid),
           has_discarded := true }, true) := by
    simp [stepGame, handleAction_accepted d pid _ g player hst hturn heq,
      hbody]
  rw [hstep]
  refine ⟨rfl, rfl, ?_, ?_, rfl⟩
  · exact findPlayer_updateHand_self g.players pid _ player heq
  · intro q hq
    exact findPlayer_updateHand_ne g.players pid q _ hq

/-- Player 1's record in `gEx0` (the hand dealt from `fullDeck`). -/
def pEx1 : Player :=
  { name := "Player 1", pid := 1,
    hand := [Card.mk Suit.hearts Rank.r2, Card.mk Suit.hearts Rank.r4,
             Card.mk Suit.hearts Rank.r6, Card.mk Suit.hearts Rank.r8,
             Card.mk Suit.hearts Rank.r10, Card.mk Suit.hearts Rank.queen,
             Card.mk Suit.hearts Rank.ace] }

/-- A small started game where the current player holds two Jacks. -/
def gEx2 : Game :=
  { players :=
      [{ name := "Player 1", pid := 1,
         hand := [Card.mk Suit.hearts Rank.jack, Card.mk Suit.spades Rank.jack,
                  Card.mk Suit.clubs Rank.r5] },
       { name := "Player 2", pid := 2,
         hand := [Card.mk Suit.hearts Rank.r3,
                  Card.mk Suit.diamonds Rank.r9] }],
    deck := [Card.mk Suit.clubs Rank.r2, Card.mk Suit.clubs Rank.r3],
    current_turn_player_id := some 1,
    discard_pile := [Card.mk Suit.diamonds Rank.r5],
    player_order := [1, 2], game_started := true,
    has_discarded := false, pending_discard := none, show_results := none }

/-- Player 1's record in `gEx2`. -/
def pEx2 : Player :=
  { name := "Player 1", pid := 1,
    hand := [Card.mk Suit.hearts Rank.jack, Card.mk Suit.spades Rank.jack,
             Card.mk Suit.clubs Rank.r5] }

theorem claim_discard_before_draw_witness :
    stepGame [] 1 ActionMsg.draw_card gEx0 = (gEx0, false) ∧
    stepGame [] 1 ActionMsg.draw_from_discard_pile gEx0 = (gEx0, false) ∧
    stepGame [] 1 ActionMsg.same_number_skip gEx0 = (gEx0, false) := by
  have h := claim_discard_before_draw [] 1 gEx0 pEx1 (by decide) (by decide)
    (by decide)
  exact h.1 (by decide)

theorem claim_group_discard_witness :
    (stepGame [] 1 (ActionMsg.discard_card
        (some (Card.mk Suit.hearts Rank.jack))) gEx2).2 = true ∧
    (stepGame [] 1 (ActionMsg.discard_card
        (some (Card.mk Suit.hearts Rank.jack))) gEx2).1.pending_discard
      = some ([Card.mk Suit.hearts Rank.jack,
               Card.mk Suit.spades Rank.jack], 1) ∧
    findPlayer (stepGame [] 1 (ActionMsg.discard_card
        (some (Card.mk Suit.hearts Rank.jack))) gEx2).1.players 1
      = some { name := "Player 1", pid := 1,
               hand := [Card.mk Suit.clubs Rank.r5] } := by
  have h := claim_group_discard [] 1 gEx2 pEx2
    (Card.mk Suit.hearts Rank.jack) (by decide) (by decide) (by decide)
    (by decide) (by decide)
    ⟨Card.mk Suit.hearts Rank.jack, by decide, by decide⟩
  refine ⟨h.1, ?_, ?_⟩
  · rw [h.2.1]
    decide
  · rw [h.2.2.1]
    decide

/-- C3: same-rank skip correctness.  In a reachable state with a pending
discard and a non-empty discard pile, `same_number_skip` by the current
player succeeds exactly when some pending card shares its rank-value with
the discard-pile top; on success the pending cards move onto the discard
pile, the pending discard is cleared, no card is drawn, and the turn
advances cyclically; on a mismatch the state is returned unchanged. -/
theorem claim_same_rank_skip (init g : Game) (d : List Card) (n : Nat)
    (d' : List Card) (pid : Nat) (cs : List Card) (q : Nat) (top : Card)
    (hnd : (init.players.map Player.pid).Nodup)
    (horder : init.player_order = init.players.map Player.pid)
    (hstart : (startGame d n init).2 = true)
    (hreach : Reachable (startGame d n init).1 g)
    (hpend : g.pending_discard = some (cs, q))
    (htop : g.discard_pile.getLast? = some top)
    (hturn : g.current_turn_player_id = some pid) :
    ((stepGame d' pid ActionMsg.same_number_skip g).2 = true ↔
      ∃ c ∈ cs, getCardValue c = getCardValue top) ∧
    ((∃ c ∈ cs, getCardValue c = getCardValue top) →
      (stepGame d' pid ActionMsg.same_number_skip g).1.discard_pile
          = g.discard_pile ++ cs ∧
      (stepGame d' pid ActionMsg.same_number_skip g).1.pending_discard
          = none ∧
      (stepGame d' pid ActionMsg.same_number_skip g).1.players = g.players ∧
      (stepGame d' pid ActionMsg.same_number_skip g).1.deck = g.deck ∧
      (∃ i, g.player_order.findIdx? (fun x => x == pid) = some i ∧
        (stepGame d' pid
            ActionMsg.same_number_skip g).1.current_turn_player_id
          = g.player_order.get? ((i + 1) % g.player_order.length))) ∧
    (¬(∃ c ∈ cs, getCardValue c = getCardValue top) →
      stepGame d' pid ActionMsg.same_number_skip g = (g, false)) := by
  obtain ⟨hst0, h20⟩ := startGame_snd_true d n init hstart
  have hg := reachable_goodState
    (startGame_goodState d n init hnd horder hst0 h20) hreach
  obtain ⟨hst, hndg, hsub, ⟨c0, hcur, hmem⟩, hpInv, hpNone⟩ := hg
  have hc0 : c0 = pid := by
    rw [hcur] at hturn
    injection hturn
  have hpidmem : pid ∈ g.player_order := hc0 ▸ hmem
  have hpidpl : pid ∈ g.players.map Player.pid := hsub pid hpidmem
  obtain ⟨player, hplayer⟩ := findPlayer_isSome_of_mem _ _ hpidpl
  have hhd : g.has_discarded = true := (hpInv cs q hpend).2.2.2
  have hturn' : g.current_turn_player_id = some pid := hc0 ▸ hcur
  by_cases hmatchP : ∃ c ∈ cs, getCardValue c = getCardValue top
  · have hmatch : cs.any
        (fun c => getCardValue c == getCardValue top) = true := by
      rw [List.any_eq_true]
      obtain ⟨c, hc, hv⟩ := hmatchP
      exact ⟨c, hc, by simp [hv]⟩
    have hbody : handleBody d' pid player g ActionMsg.same_number_skip
        = ({ g with discard_pile := g.discard_pile ++ cs,
                    pending_discard := none, has_discarded := false },
           true, true) := by
      simp [handleBody, hpend, hhd, htop, hmatch]
    have hstep : stepGame d' pid ActionMsg.same_number_skip g
        = (nextTurn { g with discard_pile := g.discard_pile ++ cs,
                              pending_discard := none,
                              has_discarded := false }, true) := by
      simp [stepGame,
        handleAction_accepted d' pid _ g player hst hturn' hplayer, hbody]
    have hordne : g.player_order ≠ [] := List.ne_nil_of_mem hpidmem
    obtain ⟨i, hidx⟩ := findIdx_of_mem hpidmem
    have hnx := nextTurn_advance
      { g with discard_pile := g.discard_pile ++ cs,
               pending_discard := none, has_discarded := false }
      pid i (by simpa using hst) (by simpa using hturn')
      (by simpa using hordne) (by simpa using hidx)
    refine ⟨⟨fun _ => hmatchP, fun _ => by rw [hstep]⟩, ?_, ?_⟩
    · intro _
      rw [hstep, hnx]
      exact ⟨rfl, rfl, rfl, rfl, ⟨i, hidx, rfl⟩⟩
    · intro hcon
      exact absurd hmatchP hcon
  · have hmatch : cs.any
        (fun c => getCardValue c == getCardValue top) = false := by
      push_neg at hmatchP
      rw [List.any_eq_false]
      intro c hc
      simp [hmatchP c hc]
    have hbody : handleBody d' pid player g ActionMsg.same_number_skip
        = (g, false, false) := by
      simp [handleBody, hpend, hhd, htop, hmatch]
    have hstep : stepGame d' pid ActionMsg.same_number_skip g
        = (g, false) := by
      apply stepGame_of_reject
      rw [handleAction_accepted d' pid _ g player hst hturn' hplayer, hbody]
    refine ⟨?_, ?_, fun _ => hstep⟩
    · rw [hstep]
      simp [hmatchP]
    · intro hcon
      exact absurd hcon hmatchP

/-- A 15-card shuffled-deck outcome that makes the opening discard card
(the 2 of Spades) match player 1's 2 of Hearts. -/
def dEx : List Card :=
  [Card.mk Suit.hearts Rank.r2, Card.mk Suit.hearts Rank.r3,
   Card.mk Suit.hearts Rank.r4, Card.mk Suit.hearts Rank.r5,
   Card.mk Suit.hearts Rank.r6, Card.mk Suit.hearts Rank.r7,
   Card.mk Suit.hearts Rank.r8, Card.mk Suit.hearts Rank.r9,
   Card.mk Suit.hearts Rank.r10, Card.mk Suit.hearts Rank.jack,
   Card.mk Suit.hearts Rank.queen, Card.mk Suit.hearts Rank.king,
   Card.mk Suit.hearts Rank.ace, Card.mk Suit.diamonds Rank.r2,
   Card.mk Suit.spades Rank.r2]

/-- The game started on `dEx` after player 1 discards the 2 of Hearts:
pending discard `([2 of Hearts], 1)`, discard-pile top the 2 of Spades. -/
def gEx3 : Game :=
  (stepGame [] 1
    (ActionMsg.discard_card (some (Card.mk Suit.hearts Rank.r2)))
    (startGame dEx 7 initEx).1).1

theorem claim_same_rank_skip_witness :
    (stepGame [] 1 ActionMsg.same_number_skip gEx3).2 = true ∧
    (stepGame [] 1 ActionMsg.same_number_skip gEx3).1.discard_pile
      = gEx3.discard_pile ++ [Card.mk Suit.hearts Rank.r2] ∧
    (stepGame [] 1 ActionMsg.same_number_skip gEx3).1.pending_discard
      = none ∧
    (stepGame [] 1 ActionMsg.same_number_skip gEx3).1.deck = gEx3.deck := by
  have h := claim_same_rank_skip initEx gEx3 dEx 7 [] 1
    [Card.mk Suit.hearts Rank.r2] 1 (Card.mk Suit.spades Rank.r2)
    (by decide) (by decide) (by decide)
    (Reachable.step []
      1 (ActionMsg.discard_card (some (Card.mk Suit.hearts Rank.r2)))
      (Reachable.refl _))
    (by decide) (by decide) (by decide)
  have hm : ∃ c ∈ [Card.mk Suit.hearts Rank.r2],
      getCardValue c = getCardValue (Card.mk Suit.spades Rank.r2) :=
    ⟨Card.mk Suit.hearts Rank.r2, by decide, by decide⟩
  obtain ⟨h1, h2, h3⟩ := h
  exact ⟨h1.mpr hm, (h2 hm).1, (h2 hm).2.1, (h2 hm).2.2.2.1⟩

/-! ### Assoc-list lemmas for show results -/

theorem assocGet_cons (kv : Nat × ShowResult) (m : List (Nat × ShowResult))
    (k : Nat) :
    assocGet (kv :: m) k = if kv.1 = k then some kv.2 else assocGet m k := by
  by_cases h : kv.1 = k
  · unfold assocGet
    rw [List.find?_cons_of_pos _ (by simp [h]), if_pos h]
    rfl
  · unfold assocGet
    rw [List.find?_cons_of_neg _ (by simp [h]), if_neg h]

theorem assocGet_assocSet (m : List (Nat × ShowResult)) (k k' : Nat)
    (v : ShowResult) :
    assocGet (assocSet m k v) k'
      = if k' = k then some v else assocGet m k' := by
  induction m with
  | nil =>
      show assocGet [(k, v)] k' = _
      rw [assocGet_cons]
      by_cases h : k' = k
      · simp [h]
      · have h' : ¬((k, v).1 = k') := fun hc => h hc.symm
        simp [h, h', assocGet]
  | cons kv m ih =>
      by_cases hk : kv.1 = k
      · show assocGet (if kv.1 = k then (k, v) :: m else _) k' = _
        rw [if_pos hk, assocGet_cons]
        by_cases h : k' = k
        · simp [h]
        · rw [if_neg (fun hc : (k, v).1 = k' => h hc.symm), if_neg h,
            assocGet_cons, if_neg (fun hc : kv.1 = k' => h (hc ▸ hk ▸ rfl))]
      · show assocGet (if kv.1 = k then _ else kv :: assocSet m k v) k' = _
        rw [if_neg hk, assocGet_cons, ih, assocGet_cons]
        by_cases h : k' = k
        · rw [if_pos h, if_pos h,
            if_neg (fun hc : kv.1 = k' => hk (hc.trans h))]
        · rw [if_neg h, if_neg h]

theorem assocGet_fold_of_ne (ps : List Player) (f : Player → ShowResult)
    (init : List (Nat × ShowResult)) (k : Nat)
    (h : ∀ r ∈ ps, r.pid ≠ k) :
    assocGet (ps.foldl (fun m q => assocSet m q.pid (f q)) init) k
      = assocGet init k := by
  induction ps generalizing init with
  | nil => rfl
  | cons q ps ih =>
      simp only [List.foldl_cons]
      rw [ih _ (fun r hr => h r (List.mem_cons_of_mem q hr)),
        assocGet_assocSet,
        if_neg (fun hc : k = q.pid => h q (List.mem_cons_self q ps) hc.symm)]

theorem assocGet_fold_set (ps : List Player) (f : Player → ShowResult)
    (init : List (Nat × ShowResult)) (p : Player)
    (hnd : (ps.map Player.pid).Nodup) (hp : p ∈ ps) :
    assocGet (ps.foldl (fun m q => assocSet m q.pid (f q)) init) p.pid
      = some (f p) := by
  induction ps generalizing init with
  | nil => simp at hp
  | cons q ps ih =>
      simp only [List.map_cons, List.nodup_cons] at hnd
      simp only [List.foldl_cons]
      rcases List.mem_cons.mp hp with hp | hp
      · subst hp
        have hnotin : ∀ r ∈ ps, r.pid ≠ p.pid := by
          intro r hr hc
          exact hnd.1 (hc ▸ List.mem_map_of_mem Player.pid hr)
        rw [assocGet_fold_of_ne ps f _ p.pid hnotin, assocGet_assocSet,
          if_pos rfl]
      · exact ih _ hnd.2 hp

/-- C4 counterexample: in the started game `gEx0` the current turn belongs
to player 1, and a `show` action from player 2 is rejected with the state
unchanged (the turn guard applies to `show` like to every action). -/
theorem claim_show_out_of_turn_cex :
    gEx0.current_turn_player_id = some 1 ∧
    stepGame [] 2 ActionMsg.show' gEx0 = (gEx0, false) := by decide

/-- C4 (amended): an accepted `show` — which requires the acting player
to hold the current turn — records, for every current player, Winner when
that player's hand rank-value sum equals the minimum sum over all players
and Loser otherwise. -/
theorem claim_show_records_results (d : List Card) (pid : Nat) (g : Game)
    (player : Player) (hst : g.game_started = true)
    (hturn : g.current_turn_player_id = some pid)
    (heq : findPlayer g.players pid = some player)
    (hnd : (g.players.map Player.pid).Nodup) :
    (stepGame d pid ActionMsg.show' g).2 = true ∧
    ∃ m, (stepGame d pid ActionMsg.show' g).1.show_results = some m ∧
      ∀ p ∈ g.players,
        assocGet m p.pid
          = some (if handSum p.hand
                = listMin (g.players.map (fun p => handSum p.hand))
              then ShowResult.winner else ShowResult.loser) := by
  have hstep : stepGame d pid ActionMsg.show' g
      = ({ g with
           show_results := some (g.players.foldl
             (fun m p => assocSet m p.pid
               (if handSum p.hand
                   == listMin (g.players.map (fun p => handSum p.hand))
                then ShowResult.winner else ShowResult.loser))
             (g.show_results.getD [])) }, true) := by
    simp [stepGame, handleAction_accepted d pid _ g player hst hturn heq,
      handleBody]
  rw [hstep]
  refine ⟨rfl, ⟨_, rfl, ?_⟩⟩
  intro p hp
  rw [assocGet_fold_set g.players _ _ p hnd hp]
  by_cases hv : handSum p.hand
      = listMin (g.players.map (fun p => handSum p.hand)) <;>
    simp [hv]

theorem claim_show_records_results_witness :
    (stepGame [] 1 ActionMsg.show' gEx2).2 = true ∧
    ∃ m, (stepGame [] 1 ActionMsg.show' gEx2).1.show_results = some m ∧
      assocGet m 1 = some ShowResult.loser ∧
      assocGet m 2 = some ShowResult.winner := by
  have h := claim_show_records_results [] 1 gEx2 pEx2 (by decide) (by decide)
    (by decide) (by decide)
  obtain ⟨h1, m, hm, hall⟩ := h
  have hp1 := hall pEx2 (by decide)
  have hp2 := hall
    { name := "Player 2", pid := 2,
      hand := [Card.mk Suit.hearts Rank.r3, Card.mk Suit.diamonds Rank.r9] }
    (by decide)
  exact ⟨h1, m, hm, hp1.trans (by decide), hp2.trans (by decide)⟩

/-- State `gEx2` right after an accepted `show` by player 1 (results recorded,
player 1 still on turn). -/
def gEx4 : Game := (stepGame [] 1 ActionMsg.show' gEx2).1

/-- C5 counterexample: the `show` on `gEx2` is accepted, yet in the
resulting state `gEx4` a subsequent `discard_card` by the current player
is also accepted (no ROUND_OVER gating exists, and no `new_game`
intervened). -/
theorem claim_round_over_gating_cex :
    (stepGame [] 1 ActionMsg.show' gEx2).2 = true ∧
    gEx4.show_results ≠ none ∧
    (stepGame [] 1 (ActionMsg.discard_card
        (some (Card.mk Suit.clubs Rank.r5))) gEx4).2 = true := by decide

/-- C5 (amended): an accepted `show` records the round results but does
not enter any round-over state: every field of the game other than
`show_results` — deck, hands, discard pile, pending discard,
`has_discarded`, current turn, turn order, started flag — is unchanged,
so subsequent turn actions are validated exactly as before the show. -/
theorem claim_show_changes_only_results (d : List Card) (pid : Nat)
    (g : Game) (player : Player) (hst : g.game_started = true)
    (hturn : g.current_turn_player_id = some pid)
    (heq : findPlayer g.players pid = some player) :
    (stepGame d pid ActionMsg.show' g).2 = true ∧
    (stepGame d pid ActionMsg.show' g).1
      = { g with
          show_results := (stepGame d pid ActionMsg.show' g).1.show_results } := by
  have hstep : stepGame d pid ActionMsg.show' g
      = ({ g with
           show_results := some (g.players.foldl
             (fun m p => assocSet m p.pid
               (if handSum p.hand
                   == listMin (g.players.map (fun p => handSum p.hand))
                then ShowResult.winner else ShowResult.loser))
             (g.show_results.getD [])) }, true) := by
    simp [stepGame, handleAction_accepted d pid _ g player hst hturn heq,
      handleBody]
  rw [hstep]
  exact ⟨rfl, rfl⟩

theorem claim_show_changes_only_results_witness :
    (stepGame [] 1 ActionMsg.show' gEx2).2 = true ∧
    gEx4 = { gEx2 with show_results := gEx4.show_results } := by
  have h := claim_show_changes_only_results [] 1 gEx2 pEx2 (by decide)
    (by decide) (by decide)
  exact h

/-- C6 (code bug, at the failing input): from the post-show state `gEx4`
an accepted `new_game` only clears `show_results`; `start_game` is
re-invoked but its guard fails because `game_started` was never reset, so
no fresh deck is built, no hand is re-dealt, and the discard pile and
turn are unchanged — even though a fresh 52-card deck is available. -/
theorem claim_new_game_no_restart :
    stepGame fullDeck 1 ActionMsg.new_game gEx4
      = ({ gEx4 with show_results := none }, true) := by decide

/-- Dealing `n` round-robin rounds to two players with distinct ids hands
each player `n` cards off the top of the deck. -/
theorem dealRounds_two (n : Nat) (p1 p2 : Player) (g : Game)
    (hplayers : g.players = [p1, p2])
    (horder : g.player_order = [p1.pid, p2.pid])
    (hne : p1.pid ≠ p2.pid)
    (hlen : 2 * n ≤ g.deck.length) :
    ∃ e o : List Card, e.length = n ∧ o.length = n ∧
      dealRounds g n
        = { g with players := [{ p1 with hand := p1.hand ++ e },
                               { p2 with hand := p2.hand ++ o }],
                   deck := g.deck.drop (2 * n) } := by
  induction n generalizing g p1 p2 with
  | zero =>
      refine ⟨[], [], rfl, rfl, ?_⟩
      have h1 : ({ p1 with hand := p1.hand ++ [] } : Player) = p1 := by simp
      have h2 : ({ p2 with hand := p2.hand ++ [] } : Player) = p2 := by simp
      show g = _
      rw [h1, h2, List.drop_zero, ← hplayers]
  | succ n ih =>
      obtain ⟨c1, d1, hd1⟩ : ∃ c1 d1, g.deck = c1 :: d1 := by
        cases hD : g.deck with
        | nil =>
            rw [hD] at hlen
            simp at hlen
        | cons c ds => exact ⟨c, ds, rfl⟩
      obtain ⟨c2, d2, hd2⟩ : ∃ c2 d2, d1 = c2 :: d2 := by
        cases hD : d1 with
        | nil =>
            rw [hd1, hD] at hlen
            simp [Nat.mul_succ] at hlen
        | cons c ds => exact ⟨c, ds, rfl⟩
      have hup1 : updateHand g.players p1.pid (· ++ [c1])
          = [{ p1 with hand := p1.hand ++ [c1] }, p2] := by
        rw [hplayers, updateHand_cons, updateHand_cons, if_pos rfl,
          if_neg (Ne.symm hne)]
        rfl
      have h1 : dealOne g p1.pid
          = { g with deck := d1,
                     players := [{ p1 with hand := p1.hand ++ [c1] }, p2] } := by
        unfold dealOne
        rw [hd1]
        simp only [hup1]
      have hup2 : updateHand [{ p1 with hand := p1.hand ++ [c1] }, p2]
            p2.pid (· ++ [c2])
          = [{ p1 with hand := p1.hand ++ [c1] },
             { p2 with hand := p2.hand ++ [c2] }] := by
        rw [updateHand_cons, updateHand_cons, if_neg hne, if_pos rfl]
        rfl
      have h2 : dealOne (dealOne g p1.pid) p2.pid
          = { g with deck := d2,
                     players := [{ p1 with hand := p1.hand ++ [c1] },
                                 { p2 with hand := p2.hand ++ [c2] }] } := by
        rw [h1]
        unfold dealOne
        simp only [hd2]
        simp only [hup2]
      have hdta : dealToAll g g.player_order
          = { g with deck := d2,
                     players := [{ p1 with hand := p1.hand ++ [c1] },
                                 { p2 with hand := p2.hand ++ [c2] }] } := by
        have hh : dealToAll g g.player_order
            = dealOne (dealOne g p1.pid) p2.pid := by
          rw [horder]
          rfl
        rw [hh]
        exact h2
      have hstep : dealRounds g (n + 1)
          = dealRounds (dealToAll g g.player_order) n := rfl
      have hlen2 : 2 * n ≤ d2.length := by
        rw [hd1, hd2] at hlen
        simp only [List.length_cons, Nat.mul_succ] at hlen
        omega
      obtain ⟨e, o, he, ho, heq⟩ := ih { p1 with hand := p1.hand ++ [c1] }
        { p2 with hand := p2.hand ++ [c2] }
        { g with deck := d2,
                 players := [{ p1 with hand := p1.hand ++ [c1] },
                             { p2 with hand := p2.hand ++ [c2] }] }
        rfl (by simpa using horder) (by simpa using hne) (by simpa using hlen2)
      refine ⟨c1 :: e, c2 :: o, by simp [he], by simp [ho], ?_⟩
      rw [hstep, hdta, heq]
      simp only [List.append_assoc, List.singleton_append, List.cons_append]
      have hdrop : d2.drop (2 * n) = g.deck.drop (2 * (n + 1)) := by
        rw [hd1, hd2, Nat.mul_succ]
        rfl
      simp [hdrop]

/-- C8: start-game dealing.  With exactly 2 joined players (empty hands)
and a fresh 52-card deck, `start_game` with the default 7 cards per
player succeeds, deals 7 cards to each player round-robin, places one
opening card on the discard pile, leaves 37 cards in the deck and gives
the turn to the first player in the order; with fewer than 2 players it
fails and reports not-started. -/
theorem claim_start_game_dealing (g : Game) (d : List Card) (p1 p2 : Player)
    (hplayers : g.players = [p1, p2])
    (hhand1 : p1.hand = []) (hhand2 : p2.hand = [])
    (horder : g.player_order = [p1.pid, p2.pid])
    (hne : p1.pid ≠ p2.pid)
    (hst : g.game_started = false)
    (hd : d.length = 52) :
    (startGame d 7 g).2 = true ∧
    (startGame d 7 g).1.players.map (fun p => p.hand.length) = [7, 7] ∧
    (startGame d 7 g).1.deck.length = 37 ∧
    (startGame d 7 g).1.discard_pile.length = 1 ∧
    (startGame d 7 g).1.current_turn_player_id = some p1.pid ∧
    (∀ g2 : Game, g2.players.length < 2 → startGame d 7 g2 = (g2, false)) := by
  have h2 : 2 ≤ g.players.length := by
    rw [hplayers]
    simp
  have hpos := startGame_pos_eq d 7 g hst h2
  obtain ⟨e, o, he, ho, hdeal⟩ := dealRounds_two 7 p1 p2
    { g with deck := d, discard_pile := [], has_discarded := false,
             pending_discard := none }
    hplayers horder hne (by simp [hd])
  obtain ⟨c, rest, hc⟩ : ∃ c rest, d.drop 14 = c :: rest := by
    cases hD : d.drop 14 with
    | nil =>
        exfalso
        have hlen0 := congrArg List.length hD
        simp [List.length_drop] at hlen0
        omega
    | cons c rest => exact ⟨c, rest, rfl⟩
  have hrest : rest.length = 37 := by
    have hlc := congrArg List.length hc
    simp [List.length_drop, hd] at hlc
    omega
  have hgd : (({ g with deck := d, discard_pile := [],
                        has_discarded := false,
                        pending_discard := none } : Game).deck).drop (2 * 7)
      = c :: rest := hc
  have hplace : placeOpening (dealRounds
      { g with deck := d, discard_pile := [], has_discarded := false,
               pending_discard := none } 7)
      = { g with players := [{ p1 with hand := p1.hand ++ e },
                             { p2 with hand := p2.hand ++ o }],
                 deck := rest, discard_pile := [c],
                 has_discarded := false, pending_discard := none } := by
    rw [hdeal]
    unfold placeOpening
    simp [hgd]
  have hset : setFirstTurn (placeOpening (dealRounds
      { g with deck := d, discard_pile := [], has_discarded := false,
               pending_discard := none } 7))
      = { g with players := [{ p1 with hand := p1.hand ++ e },
                             { p2 with hand := p2.hand ++ o }],
                 deck := rest, discard_pile := [c],
                 has_discarded := false, pending_discard := none,
                 current_turn_player_id := some p1.pid,
                 game_started := true } := by
    rw [hplace]
    unfold setFirstTurn
    simp [horder]
  rw [hpos, hset]
  refine ⟨rfl, ?_, ?_, rfl, rfl, ?_⟩
  · simp [hhand1, hhand2, he, ho]
  · exact hrest
  · intro g2 hg2
    exact startGame_neg d 7 g2 (Or.inr hg2)

theorem claim_start_game_dealing_witness :
    (startGame fullDeck 7 initEx).2 = true ∧
    (startGame fullDeck 7 initEx).1.players.map (fun p => p.hand.length)
      = [7, 7] ∧
    (startGame fullDeck 7 initEx).1.deck.length = 37 ∧
    (startGame fullDeck 7 initEx).1.discard_pile.length = 1 ∧
    (startGame fullDeck 7 initEx).1.current_turn_player_id = some 1 := by
  have h := claim_start_game_dealing initEx fullDeck
    { name := "Player 1", pid := 1, hand := [] }
    { name := "Player 2", pid := 2, hand := [] }
    (by decide) (by decide) (by decide) (by decide) (by decide) (by decide)
    (by decide)
  exact ⟨h.1, h.2.1, h.2.2.1, h.2.2.2.1, h.2.2.2.2.1⟩

/-- Observational equivalence of player records from viewer `pid`'s
standpoint: same id, name and hand size, and identical hands when the
record belongs to the viewer.  Two states related pointwise by this
relation differ at most in other players' hand contents. -/
def obsEqPlayer (pid : Nat) (p q : Player) : Prop :=
  p.pid = q.pid ∧ p.name = q.name ∧ p.hand.length = q.hand.length ∧
    (p.pid = pid → p.hand = q.hand)

theorem findPlayer_obsEq (pid : Nat) (ps qs : List Player)
    (h : List.Forall₂ (obsEqPlayer pid) ps qs) :
    (findPlayer ps pid = none ∧ findPlayer qs pid = none) ∨
    (∃ p q, findPlayer ps pid = some p ∧ findPlayer qs pid = some q ∧
      p.pid = pid ∧ p.hand = q.hand) := by
  induction h with
  | nil => exact Or.inl ⟨rfl, rfl⟩
  | cons hpq hrest ih =>
      rename_i p q ps' qs'
      obtain ⟨hid, hname, hlen, hhand⟩ := hpq
      rw [findPlayer_cons, findPlayer_cons]
      by_cases hp : p.pid = pid
      · have hq : q.pid = pid := hid ▸ hp
        rw [if_pos hp, if_pos hq]
        exact Or.inr ⟨p, q, rfl, rfl, hp, hhand hp⟩
      · have hq : ¬ q.pid = pid := fun hc => hp (hid ▸ hc)
        rw [if_neg hp, if_neg hq]
        exact ih

theorem playersInfo_obsEq (pid : Nat) (ps qs : List Player)
    (h : List.Forall₂ (obsEqPlayer pid) ps qs) :
    ps.map (fun p => (p.pid, p.name, p.hand.length))
      = qs.map (fun p => (p.pid, p.name, p.hand.length)) := by
  induction h with
  | nil => rfl
  | cons hpq hrest ih =>
      obtain ⟨hid, hname, hlen, -⟩ := hpq
      simp [ih, hid, hname, hlen]

/-- C9: the projection hides hidden information.  `get_game_state` is a
pure function of the state and the viewer id; for any two states that
agree on everything the viewer may see — the viewer's own record, every
other player's id, name and hand size (but not hand contents), deck size,
discard pile, turn data and results — it produces the same view, so the
view never depends on another player's hand contents; and the view's
`my_hand` is exactly the viewer's own hand. -/
theorem claim_projection_hides_hands (g g' : Game) (pid : Nat)
    (hp : List.Forall₂ (obsEqPlayer pid) g.players g'.players)
    (hdeck : g.deck.length = g'.deck.length)
    (hdisc : g.discard_pile = g'.discard_pile)
    (hcur : g.current_turn_player_id = g'.current_turn_player_id)
    (hstart : g.game_started = g'.game_started)
    (hord : g.player_order = g'.player_order)
    (hpend : g.pending_discard = g'.pending_discard)
    (hshow : g.show_results = g'.show_results) :
    getGameState g pid = getGameState g' pid ∧
    (∀ p v, findPlayer g.players pid = some p →
      getGameState g pid = some v →
      v.my_hand = p.hand.map cardToString) := by
  constructor
  · rcases findPlayer_obsEq pid g.players g'.players hp with
      ⟨h1, h2⟩ | ⟨p, q, h1, h2, hpid, hhand⟩
    · unfold getGameState
      rw [h1, h2]
    · unfold getGameState
      rw [h1, h2]
      have hinfo := playersInfo_obsEq pid g.players g'.players hp
      simp [hhand, hinfo, hdeck, hdisc, hcur, hstart, hord, hpend, hshow]
  · intro p v hfp hv
    unfold getGameState at hv
    rw [hfp] at hv
    have hv' := Option.some.inj hv
    rw [← hv']

/-- State `gEx2` with player 2's hand contents replaced by different cards of
the same count (a King and a Queen instead of a 3 and a 9). -/
def gEx2b : Game :=
  { gEx2 with
    players :=
      [{ name := "Player 1", pid := 1,
         hand := [Card.mk Suit.hearts Rank.jack, Card.mk Suit.spades Rank.jack,
                  Card.mk Suit.clubs Rank.r5] },
       { name := "Player 2", pid := 2,
         hand := [Card.mk Suit.spades Rank.king,
                  Card.mk Suit.diamonds Rank.queen] }] }

theorem claim_projection_hides_hands_witness :
    getGameState gEx2 1 = getGameState gEx2b 1 := by
  have h := claim_projection_hides_hands gEx2 gEx2b 1
    (List.Forall₂.cons ⟨rfl, rfl, rfl, fun _ => rfl⟩
      (List.Forall₂.cons ⟨rfl, rfl, by decide, fun hc => absurd hc (by decide)⟩
        List.Forall₂.nil))
    rfl rfl rfl rfl rfl rfl rfl
  exact h.1
